import Mathlib

/-!
Verification of the duplicate-detection and processing-state-tracking
subsystem of the contract-management email processor.

The JavaScript (Google Apps Script) source is embedded shallowly:

* Strings are Lean `String`s (`List Char` underneath); the regex strips
  `replace(/[^...]/g, '')`, `toLowerCase()`, `Array.sort()`, `Array.join()`,
  `substring`, and `startsWith` are modelled character-by-character.
* A JS `Date` is its epoch value in milliseconds (`Nat`); the external
  `Utilities.formatDate(date, 'JST', 'yyyyMMdd_HHmm')` collaborator is
  modelled by an explicit JST (UTC+9, no DST) Gregorian rendering.
* The external digest collaborator
  (`Utilities.base64Encode(Utilities.computeDigest(MD5, ...))`) is an
  abstract parameter `digest : String → String`.
* The two spreadsheet tabs (content-duplicate ledger and processed-message
  ledger) are lists of records in sheet order; `appendRow` is list append,
  and the scans in `checkContentDuplicate` / `isMessageProcessedInSpreadsheet`
  are `List.find?`.  A tab that is unreachable (every function catches and
  falls back) is modelled by an `avail : Bool` flag.
* Script Properties (the bounded fast store) is an association list in
  enumeration (= insertion) order.
-/

namespace CMP

/-! ### Characters and strings -/

/-- Decimal digit character, as produced by the date formatter and by the
JS number-to-string rendering (only the last decimal digit of `n` is used). -/
def digitChar (n : Nat) : Char := Char.ofNat (48 + n % 10)

/-- Two-digit zero-padded rendering, as produced by the `MM`, `dd`, `HH`,
`mm`, `ss` fields of the date format pattern (all fed values below 100). -/
def pad2 (n : Nat) : String := ⟨[digitChar (n / 10), digitChar n]⟩

/-- Decimal digits of `n`, most significant first; `fuel` bounds recursion
depth (always called with `fuel > n`). -/
def natDecimalAux : Nat → Nat → List Char
  | 0, _ => []
  | fuel + 1, n => if n < 10 then [digitChar n] else natDecimalAux fuel (n / 10) ++ [digitChar n]

/-- Decimal rendering of a natural number, as JS `String(n)` / template
literal interpolation produces for a non-negative integer. -/
def natDecimal (n : Nat) : String := ⟨natDecimalAux (n + 1) n⟩

/-- Numeric value of a digit string (helper used to invert `natDecimalAux`). -/
def valOfDigits (l : List Char) : Nat := l.foldl (fun acc c => acc * 10 + (c.toNat - 48)) 0

/-- Model of JS `toLowerCase()` restricted to ASCII letters.  The source
always lowercases strings that were already stripped to ASCII by a
`replace(/[^...]/g, '')`, so the ASCII behaviour is the only one exercised. -/
def jsToLower (c : Char) : Char :=
  if 65 ≤ c.toNat ∧ c.toNat ≤ 90 then Char.ofNat (c.toNat + 32) else c

/-- Whitespace characters (space, tab, newline, carriage return, form feed). -/
def isWsChar (c : Char) : Bool :=
  decide (c.toNat = 32 ∨ c.toNat = 9 ∨ c.toNat = 10 ∨ c.toNat = 13 ∨ c.toNat = 12)

/-- Character class of the subject strip `replace(/[^a-zA-Z0-9]/g, '')`. -/
def isAlnumChar (c : Char) : Bool :=
  decide ((65 ≤ c.toNat ∧ c.toNat ≤ 90) ∨ (97 ≤ c.toNat ∧ c.toNat ≤ 122) ∨
    (48 ≤ c.toNat ∧ c.toNat ≤ 57))

/-- Character class of the sender strip `replace(/[^a-zA-Z0-9@.]/g, '')`. -/
def isSenderChar (c : Char) : Bool := isAlnumChar c || decide (c.toNat = 64) || decide (c.toNat = 46)

/-- Character class of the attachment-name strip `replace(/[^a-zA-Z0-9.,]/g, '')`. -/
def isPdfChar (c : Char) : Bool := isAlnumChar c || decide (c.toNat = 46) || decide (c.toNat = 44)

/-- Model of `s.replace(/[^class]/g, '')`: keep exactly the characters of the class. -/
def stripStr (p : Char → Bool) (s : String) : String := ⟨s.data.filter p⟩

/-- Model of `s.toLowerCase()` (ASCII range, see `jsToLower`). -/
def lowerStr (s : String) : String := ⟨s.data.map jsToLower⟩

/-- Model of `s.substring(0, n)`. -/
def jsSubstringTo (s : String) (n : Nat) : String := ⟨s.data.take n⟩

/-- Code-unit lexicographic comparison used by the default JS `Array.sort()`
comparator on strings ("a ≤ b"). -/
def jsLeChars : List Char → List Char → Bool
  | [], _ => true
  | _ :: _, [] => false
  | a :: as, b :: bs => if a < b then true else if b < a then false else jsLeChars as bs

/-- The sort order of the default JS `Array.prototype.sort` on strings. -/
def jsLeStr (a b : String) : Prop := jsLeChars a.data b.data = true

instance jsLeStrDecidable : DecidableRel jsLeStr :=
  fun a b => inferInstanceAs (Decidable (_ = true))

/-- Model of `names.sort()` (default comparator, ascending). -/
def jsSortStrings (l : List String) : List String := List.insertionSort jsLeStr l

/-- Model of `Array.prototype.join(sep)`. -/
def joinSep (sep : String) : List String → String
  | [] => ""
  | [s] => s
  | s :: rest => s ++ sep ++ joinSep sep rest

/-- The non-whitespace characters of `s`, case-folded.  `cwVariant s s'`
says `s` and `s'` differ only in letter case and in whitespace. -/
def cwVariant (s s' : String) : Prop :=
  (s.data.filter (fun c => !isWsChar c)).map jsToLower
    = (s'.data.filter (fun c => !isWsChar c)).map jsToLower

instance cwVariantDecidable (s s' : String) : Decidable (cwVariant s s') :=
  inferInstanceAs (Decidable (_ = _))

/-- The characters of `s`, case-folded; two strings are case variants of
each other iff their `lowerChars` agree. -/
def lowerChars (s : String) : List Char := s.data.map jsToLower

/-! ### JST calendar rendering (model of `Utilities.formatDate(_, 'JST', _)`) -/

/-- Gregorian leap-year test. -/
def isLeap (y : Nat) : Bool := (y % 4 == 0 && y % 100 != 0) || (y % 400 == 0)

/-- Length of year `y` in days. -/
def daysInYear (y : Nat) : Nat := if isLeap y then 366 else 365

/-- Walk forward from year `y`, consuming whole years from the day count
`z`; returns the final year and the remaining 0-based day of year.
`fuel` bounds the recursion and is always chosen strictly above `z`. -/
def yearFromAux : Nat → Nat → Nat → Nat × Nat
  | 0, y, z => (y, z)
  | fuel + 1, y, z => if daysInYear y ≤ z then yearFromAux fuel (y + 1) (z - daysInYear y) else (y, z)

/-- Year and 0-based day-of-year of day `z` counted from 1970-01-01. -/
def yearFrom (z : Nat) : Nat × Nat := yearFromAux (z + 1) 1970 z

/-- Extra day of a leap year, accumulated from February onward. -/
def leapAdd (leap : Bool) : Nat := if leap then 1 else 0

/-- Month (1-12) and day-of-month (1-based) of a 0-based day of year. -/
def monthDayOfYear (leap : Bool) (doy : Nat) : Nat × Nat :=
  let f : Nat := leapAdd leap
  if doy < 31 then (1, doy + 1)
  else if doy < 59 + f then (2, doy - 31 + 1)
  else if doy < 90 + f then (3, doy - (59 + f) + 1)
  else if doy < 120 + f then (4, doy - (90 + f) + 1)
  else if doy < 151 + f then (5, doy - (120 + f) + 1)
  else if doy < 181 + f then (6, doy - (151 + f) + 1)
  else if doy < 212 + f then (7, doy - (181 + f) + 1)
  else if doy < 243 + f then (8, doy - (212 + f) + 1)
  else if doy < 273 + f then (9, doy - (243 + f) + 1)
  else if doy < 304 + f then (10, doy - (273 + f) + 1)
  else if doy < 334 + f then (11, doy - (304 + f) + 1)
  else (12, doy - (334 + f) + 1)

/-- Days of the year preceding month `m` (1-12). -/
def cumDaysBefore (leap : Bool) (m : Nat) : Nat :=
  let f : Nat := leapAdd leap
  match m with
  | 1 => 0
  | 2 => 31
  | 3 => 59 + f
  | 4 => 90 + f
  | 5 => 120 + f
  | 6 => 151 + f
  | 7 => 181 + f
  | 8 => 212 + f
  | 9 => 243 + f
  | 10 => 273 + f
  | 11 => 304 + f
  | 12 => 334 + f
  | _ => 0

/-- Inverse of `monthDayOfYear`: 0-based day of year of a month/day pair. -/
def doyOfMonthDay (leap : Bool) (m d : Nat) : Nat := cumDaysBefore leap m + d - 1

/-- Minute index of epoch-millisecond instant `tms` in JST (UTC+9, no DST). -/
def jstMinuteIdx (tms : Nat) : Nat := (tms + 32400000) / 60000

/-- Model of `Utilities.formatDate(date, 'JST', 'yyyyMMdd_HHmm')`: minute
precision, Japan Standard Time.  Years are at least 1970, hence already at
least four digits wide. -/
def formatDateKeyJst (tms : Nat) : String :=
  let m := jstMinuteIdx tms
  let yd := yearFrom (m / 1440)
  let md := monthDayOfYear (isLeap yd.1) yd.2
  natDecimal yd.1 ++ pad2 md.1 ++ pad2 md.2 ++ "_" ++ pad2 (m / 60 % 24) ++ pad2 (m % 60)

/-- Model of `Utilities.formatDate(date, 'JST', 'yyyy/MM/dd HH:mm:ss')`
(the row-timestamp format of the spreadsheet ledgers). -/
def formatDateTimeJst (tms : Nat) : String :=
  let s := (tms + 32400000) / 1000
  let m := s / 60
  let yd := yearFrom (m / 1440)
  let md := monthDayOfYear (isLeap yd.1) yd.2
  natDecimal yd.1 ++ "/" ++ pad2 md.1 ++ "/" ++ pad2 md.2 ++ " "
    ++ pad2 (m / 60 % 24) ++ ":" ++ pad2 (m % 60) ++ ":" ++ pad2 (s % 60)

/-! ### Fingerprint generator (`generateContentDuplicateKey`) -/

/-- The pre-digest canonical string `${senderKey}_${dateKey}_${subjectKey}_${pdfKey}`
built by `generateContentDuplicateKey` before hashing. -/
def combinedContentKey (sender : String) (t : Nat) (subject : String)
    (pdfNames : List String) : String :=
  let dateKey := formatDateKeyJst t
  let subjectKey := lowerStr (stripStr isAlnumChar subject)
  let pdfKey := lowerStr (stripStr isPdfChar (joinSep "," (jsSortStrings pdfNames)))
  let senderKey := lowerStr (stripStr isSenderChar sender)
  senderKey ++ "_" ++ dateKey ++ "_" ++ subjectKey ++ "_" ++ pdfKey

/-- Model of `generateContentDuplicateKey(sender, date, subject, pdfNames)`.
`digest` abstracts the external MD5/base64 collaborator; `nowMs` is the
wall clock read by the catch-block fallback; `date = none` models the
normalization failure (missing/invalid timestamp) that makes the `try`
block throw, in which case the fallback key is returned. -/
def generateContentDuplicateKey (digest : String → String) (nowMs : Nat) (sender : String)
    (date : Option Nat) (subject : String) (pdfNames : List String) : String :=
  match date with
  | some t => "CONTENT_" ++ jsSubstringTo (digest (combinedContentKey sender t subject pdfNames)) 16
  | none => "CONTENT_" ++ natDecimal nowMs

/-! ### Content Ledger and Processing Ledger -/

/-- Row of the content-duplicate tracking sheet, in column order
(registration date, content key, sender, send date, subject, pdf names,
Drive folder URL, first-save date). -/
structure DuplicateRecordRow where
  registeredAt : String
  contentKey : String
  sender : String
  sentAt : String
  subject : String
  pdfNames : String
  driveUrl : String
  firstSavedAt : String
deriving DecidableEq

/-- Row of the processed-messages sheet, in column order
(processing date, message id, content key, subject, sender, status). -/
structure ProcessingRecordRow where
  processedAt : String
  messageId : String
  contentKey : String
  subject : String
  sender : String
  status : String
deriving DecidableEq

/-- Model of `checkContentDuplicate(contentKey)`: linear scan of the
content-duplicate sheet for the first row whose column B equals the key,
returning its Drive URL (column G); `none` plays `{isDuplicate: false}`. -/
def checkContentDuplicate (rows : List DuplicateRecordRow) (key : String) : Option String :=
  (rows.find? (fun r => r.contentKey == key)).map (fun r => r.driveUrl)

/-- Model of `recordContentDuplicate(...)`: `appendRow` on the
content-duplicate sheet. -/
def recordContentDuplicate (rows : List DuplicateRecordRow) (row : DuplicateRecordRow) :
    List DuplicateRecordRow :=
  rows ++ [row]

/-- Number of rows of the content ledger carrying a given content key. -/
def countContentKey (rows : List DuplicateRecordRow) (key : String) : Nat :=
  rows.countP (fun r => r.contentKey == key)

/-- Content-ledger states produced by the coordinator: `recordContentDuplicate`
is only ever invoked by `processAttachments` after `checkContentDuplicate`
reported the key as new (and the first PDF was persisted). -/
inductive ContentLedgerReachable : List DuplicateRecordRow → Prop where
  | nil : ContentLedgerReachable []
  | append (rows : List DuplicateRecordRow) (row : DuplicateRecordRow)
      (hmiss : checkContentDuplicate rows row.contentKey = none)
      (h : ContentLedgerReachable rows) :
      ContentLedgerReachable (recordContentDuplicate rows row)

/-- Model of `checkContentDuplicate` including its catch-all: when the
backing spreadsheet is unreachable (`avail = false`) the function logs and
returns `{isDuplicate: false}`. -/
def checkContentDuplicateAt (avail : Bool) (rows : List DuplicateRecordRow) (key : String) :
    Option String :=
  if avail then checkContentDuplicate rows key else none

/-- Model of `recordContentDuplicate` including its catch-all: when the
backing spreadsheet is unreachable the append is silently dropped. -/
def recordContentDuplicateAt (avail : Bool) (rows : List DuplicateRecordRow)
    (row : DuplicateRecordRow) : List DuplicateRecordRow :=
  if avail then recordContentDuplicate rows row else rows

/-- Model of `isMessageProcessedInSpreadsheet(messageId)`: linear scan of
the processed-messages sheet on column B; on any error (unreachable store)
the catch returns `false` ("assume not processed"). -/
def isMessageProcessedInSpreadsheet (avail : Bool) (ledger : List ProcessingRecordRow)
    (messageId : String) : Bool :=
  if avail then (ledger.find? (fun r => r.messageId == messageId)).isSome else false

/-- Model of `markMessageProcessedInSpreadsheet(messageId, subject, sender,
contentKey = null, status = 'Success')`: `appendRow`; errors (unreachable
store) are swallowed, leaving the sheet unchanged. -/
def markMessageProcessedInSpreadsheet (avail : Bool) (ledger : List ProcessingRecordRow)
    (nowStr messageId subject sender : String) (contentKey : Option String) (status : String) :
    List ProcessingRecordRow :=
  if avail then ledger ++ [⟨nowStr, messageId, contentKey.getD "", subject, sender, status⟩]
  else ledger

/-! ### Duplicate Coordinator (`processEmails` / `processMessage` / `processAttachments`) -/

/-- One inbound message as seen by the coordinator.  `patternOk` is the
outcome of `checkSubjectPattern`; `saveOk` is whether the external document
store persisted the first PDF (`saveAttachmentToDrive` succeeded);
`driveUrl` is the folder URL it reported on success. -/
structure MsgInput where
  messageId : String
  sender : String
  subject : String
  sentAt : Nat
  pdfNames : List String
  patternOk : Bool
  saveOk : Bool
  driveUrl : String
deriving DecidableEq

/-- The stores the coordinator reads and writes: the two ledger sheets and
the Script Properties key/value store (bounded fast store + configuration). -/
structure MsgState where
  contentLedger : List DuplicateRecordRow
  processingLedger : List ProcessingRecordRow
  scriptProps : List (String × String)
deriving DecidableEq

/-- Result of handling one message: the new stores, whether the message was
actually processed this run (Slack notification issued), and whether the
document store was invoked for its attachments. -/
structure StepResult where
  state : MsgState
  notified : Bool
  storeInvoked : Bool
deriving DecidableEq

/-- Ledger-relevant effect of `processAttachments(attachments, subject, date,
sender)`: compute the content key, look it up, and on a miss persist the
first PDF; only a successful save of the first attachment appends the
DuplicateRecord (the `index === 0` guard).  Returns the new content ledger,
whether a duplicate was found, and whether the document store was invoked. -/
def contentPhase (avail : Bool) (digest : String → String) (nowMs : Nat) (nowStr : String)
    (ledger : List DuplicateRecordRow) (m : MsgInput) :
    List DuplicateRecordRow × Bool × Bool :=
  if m.pdfNames.isEmpty then (ledger, false, false)
  else
    let key := generateContentDuplicateKey digest nowMs m.sender (some m.sentAt) m.subject m.pdfNames
    match checkContentDuplicateAt avail ledger key with
    | some _ => (ledger, true, false)
    | none =>
      if m.saveOk then
        (recordContentDuplicateAt avail ledger
          ⟨nowStr, key, m.sender, formatDateTimeJst m.sentAt, m.subject,
            joinSep ", " m.pdfNames, m.driveUrl, nowStr⟩, false, true)
      else (ledger, false, true)

/-- Per-message body of the `processEmails` loop: skip if
`isMessageAlreadyProcessed` (which consults only the processed-messages
sheet); otherwise run `processMessage` — pattern check, attachment handling,
Slack notification — and, when it returns true, `markMessageAsProcessed`,
which appends a ProcessingRecord with the default arguments
(`contentKey = null`, `status = 'Success'`). -/
def messageStep (avail : Bool) (digest : String → String) (nowMs : Nat) (nowStr : String)
    (st : MsgState) (m : MsgInput) : StepResult :=
  if isMessageProcessedInSpreadsheet avail st.processingLedger m.messageId then
    ⟨st, false, false⟩
  else if m.patternOk = false then
    ⟨st, false, false⟩
  else
    let cp := contentPhase avail digest nowMs nowStr st.contentLedger m
    let pl := markMessageProcessedInSpreadsheet avail st.processingLedger nowStr m.messageId
      m.subject m.sender none "Success"
    ⟨⟨cp.1, pl, st.scriptProps⟩, true, cp.2.2⟩

/-! ### Script Properties store (`setProperty`, rotation and cleanup) -/

/-- The Script Properties store: key/value pairs in enumeration order. -/
abbrev PropStore := List (String × String)

/-- Model of `Object.hasOwnProperty` / key membership. -/
def hasKey (s : PropStore) (k : String) : Bool := s.any (fun p => p.1 == k)

/-- Model of `getProperty(key)`. -/
def getProp (s : PropStore) (k : String) : Option String :=
  (s.find? (fun p => p.1 == k)).map (fun p => p.2)

/-- Model of `deleteProperty(key)`. -/
def deleteProp (s : PropStore) (k : String) : PropStore :=
  s.filter (fun p => !(p.1 == k))

/-- Model of the raw `PropertiesService...setProperty(key, value)`: update in
place when the key exists, otherwise append. -/
def setRaw (s : PropStore) (k v : String) : PropStore :=
  if hasKey s k then s.map (fun p => if p.1 == k then (k, v) else p) else s ++ [(k, v)]

/-- Model of `key.startsWith('PROCESSED_MSG_')`. -/
def keyIsProcessedMsg (k : String) : Bool := "PROCESSED_MSG_".data.isPrefixOf k.data

/-- Model of `parseInt(value)` on the stored timestamp strings: the leading
run of decimal digits, `none` when there is none (`NaN`). -/
def jsParseIntNat (v : String) : Option Nat :=
  let ds := v.data.takeWhile (fun c => decide (48 ≤ c.toNat ∧ c.toNat ≤ 57))
  if ds.isEmpty then none else some (valOfDigits ds)

/-- The `PROCESSED_MSG_` entries of the store whose values parse as
timestamps, paired with those timestamps (the `processedMessages` array
collected by `rotateProcessedMessages`). -/
def procEntries (s : PropStore) : List (String × Nat) :=
  s.filterMap (fun p =>
    if keyIsProcessedMsg p.1 then (jsParseIntNat p.2).map (fun t => (p.1, t)) else none)

/-- Comparator `(a, b) => a.timestamp - b.timestamp` of `rotateProcessedMessages`. -/
def tsLe (a b : String × Nat) : Prop := a.2 ≤ b.2

instance tsLeDecidable : DecidableRel tsLe := fun a b => inferInstanceAs (Decidable (_ ≤ _))

/-- The processed-message entries sorted by timestamp, oldest first. -/
def sortedProcEntries (s : PropStore) : List (String × Nat) :=
  List.insertionSort tsLe (procEntries s)

/-- Model of `rotateProcessedMessages(removeCount)`: delete the
`removeCount` oldest parseable `PROCESSED_MSG_` entries. -/
def rotateProcessedMessages (removeCount : Nat) (s : PropStore) : PropStore :=
  ((sortedProcEntries s).take removeCount).foldl (fun st item => deleteProp st item.1) s

/-- Model of `cleanupOldProcessedMessages(daysOld)`: delete every
`PROCESSED_MSG_` entry whose parsed timestamp is older than the cutoff
(`parseInt` yielding `NaN` never satisfies `timestamp < cutoffTime`). -/
def cleanupOldProcessedMessages (nowMs daysOld : Nat) (s : PropStore) : PropStore :=
  let cutoff := nowMs - daysOld * 86400000
  s.filter (fun p =>
    !(keyIsProcessedMsg p.1 &&
      (match jsParseIntNat p.2 with
       | some t => decide (t < cutoff)
       | none => false)))

/-- Model of `clearAllProcessedMessages()`: delete every `PROCESSED_MSG_` entry. -/
def clearAllProcessedMessages (s : PropStore) : PropStore :=
  s.filter (fun p => !keyIsProcessedMsg p.1)

/-- Model of `setProperty(key, value)`: when the store holds at least 48
properties and the key is new, first rotate out the 5 oldest processed
entries (for `PROCESSED_MSG_` keys) or age-clean entries older than 3 days
(for other keys), then store the property. -/
def setProperty (nowMs : Nat) (s : PropStore) (k v : String) : PropStore :=
  let s' :=
    if 48 ≤ s.length ∧ hasKey s k = false then
      if keyIsProcessedMsg k then rotateProcessedMessages 5 s
      else cleanupOldProcessedMessages nowMs 3 s
    else s
  setRaw s' k v

/-! ### Sample inputs used by concrete instantiations -/

/-- A message with no PDF attachments, subject pattern matched. -/
def sampleMsg : MsgInput :=
  ⟨"m1", "a@x.com", "Loan Agreement", 0, [], true, true, "https://folder.example"⟩

/-- A message with one PDF whose persistence to the document store fails. -/
def sampleFailMsg : MsgInput :=
  ⟨"m1", "a@x.com", "Loan Agreement", 0, ["loan.pdf"], true, false, "https://folder.example"⟩

/-- A processed-messages ledger row for message `m1`. -/
def samplePrevRow : ProcessingRecordRow :=
  ⟨"2024/06/22 10:25:00", "m1", "", "Loan Agreement", "a@x.com", "Success"⟩

/-- A content-duplicate ledger row for key `CONTENT_k1`. -/
def sampleDupRow : DuplicateRecordRow :=
  ⟨"2024/06/22 10:30:00", "CONTENT_k1", "a@x.com", "2024/06/22 10:29:00", "Loan Agreement",
    "loan.pdf", "https://duplicate-url.example", "2024/06/22 10:30:00"⟩

/-- A Script Properties store holding a legacy fast-store entry for `m1`. -/
def samplePropsFast : List (String × String) := [("PROCESSED_MSG_m1", "1719000000000")]

/-- A Script Properties store mixing configuration and fast-store entries. -/
def samplePropsMixed : PropStore :=
  [("SLACK_WEBHOOK_URL", "https://hooks.example"), ("PROCESSED_MSG_m1", "1719000000000"),
    ("DRIVE_FOLDER_ID", "folder123"), ("PROCESSED_MSG_m2", "1718000000000")]

/-- A Script Properties store at the 48-property threshold, filled with
processed-message entries. -/
def sampleStore48 : PropStore :=
  (List.range 48).map (fun i => ("PROCESSED_MSG_" ++ natDecimal i, natDecimal i))

/-! ### Character and string lemmas -/

theorem toNat_ofNat_small (n : Nat) (h : n < 55296) : (Char.ofNat n).toNat = n := by
  have hv : Nat.isValidChar n := Or.inl h
  simp [Char.ofNat, hv, Char.ofNatAux, Char.toNat, UInt32.toNat, UInt32.ofNatCore]

theorem char_eq_of_toNat_eq {c d : Char} (h : c.toNat = d.toNat) : c = d := by
  apply Char.ext
  apply UInt32.ext
  exact h

theorem digitChar_toNat (n : Nat) : (digitChar n).toNat = 48 + n % 10 :=
  toNat_ofNat_small _ (by omega)

theorem digitChar_inj {a b : Nat} (h : digitChar a = digitChar b) : a % 10 = b % 10 := by
  have h2 := congrArg Char.toNat h
  rw [digitChar_toNat, digitChar_toNat] at h2
  omega

theorem pad2_data (n : Nat) : (pad2 n).data = [digitChar (n / 10), digitChar n] := rfl

theorem pad2_inj {a b : Nat} (ha : a < 100) (hb : b < 100) (h : pad2 a = pad2 b) : a = b := by
  have h2 := congrArg String.data h
  rw [pad2_data, pad2_data] at h2
  simp only [List.cons.injEq, and_true] at h2
  have h3 := digitChar_inj h2.1
  have h4 := digitChar_inj h2.2
  omega

theorem valOfDigits_append (l : List Char) (c : Char) :
    valOfDigits (l ++ [c]) = valOfDigits l * 10 + (c.toNat - 48) := by
  simp [valOfDigits, List.foldl_append]

theorem valOfDigits_natDecimalAux : ∀ fuel n, n < fuel → valOfDigits (natDecimalAux fuel n) = n := by
  intro fuel
  induction fuel with
  | zero => omega
  | succ f ih =>
    intro n hn
    by_cases h10 : n < 10
    · simp only [natDecimalAux, if_pos h10]
      simp [valOfDigits, digitChar_toNat]
      omega
    · simp only [natDecimalAux, if_neg h10]
      rw [valOfDigits_append, ih (n / 10) (by omega), digitChar_toNat]
      omega

theorem natDecimal_inj {a b : Nat} (h : natDecimal a = natDecimal b) : a = b := by
  have h2 := congrArg (fun s : String => valOfDigits s.data) h
  simpa [natDecimal, valOfDigits_natDecimalAux (a + 1) a (by omega),
    valOfDigits_natDecimalAux (b + 1) b (by omega)] using h2

theorem jsToLower_toNat (c : Char) :
    (jsToLower c).toNat = if 65 ≤ c.toNat ∧ c.toNat ≤ 90 then c.toNat + 32 else c.toNat := by
  unfold jsToLower
  split
  · next h => exact toNat_ofNat_small _ (by omega)
  · rfl

theorem jsToLower_cases {a b : Char} (h : jsToLower a = jsToLower b) :
    a = b ∨ (65 ≤ a.toNat ∧ a.toNat ≤ 90 ∧ b.toNat = a.toNat + 32)
      ∨ (65 ≤ b.toNat ∧ b.toNat ≤ 90 ∧ a.toNat = b.toNat + 32) := by
  have h2 := congrArg Char.toNat h
  rw [jsToLower_toNat, jsToLower_toNat] at h2
  by_cases ha : 65 ≤ a.toNat ∧ a.toNat ≤ 90 <;> by_cases hb : 65 ≤ b.toNat ∧ b.toNat ≤ 90
  · rw [if_pos ha, if_pos hb] at h2
    exact Or.inl (char_eq_of_toNat_eq (by omega))
  · rw [if_pos ha, if_neg hb] at h2
    exact Or.inr (Or.inl ⟨ha.1, ha.2, by omega⟩)
  · rw [if_neg ha, if_pos hb] at h2
    exact Or.inr (Or.inr ⟨hb.1, hb.2, by omega⟩)
  · rw [if_neg ha, if_neg hb] at h2
    exact Or.inl (char_eq_of_toNat_eq h2)

theorem isAlnumChar_eq_of_lower_eq {a b : Char} (h : jsToLower a = jsToLower b) :
    isAlnumChar a = isAlnumChar b := by
  rcases jsToLower_cases h with rfl | ⟨h1, h2, h3⟩ | ⟨h1, h2, h3⟩ <;>
    [rfl; skip; skip] <;>
    (rw [Bool.eq_iff_iff]; simp only [isAlnumChar, decide_eq_true_eq]; omega)

theorem isSenderChar_eq_of_lower_eq {a b : Char} (h : jsToLower a = jsToLower b) :
    isSenderChar a = isSenderChar b := by
  rcases jsToLower_cases h with rfl | ⟨h1, h2, h3⟩ | ⟨h1, h2, h3⟩ <;>
    [rfl; skip; skip] <;>
    (rw [Bool.eq_iff_iff];
     simp only [isSenderChar, isAlnumChar, Bool.or_eq_true, decide_eq_true_eq]; omega)

theorem isPdfChar_eq_of_lower_eq {a b : Char} (h : jsToLower a = jsToLower b) :
    isPdfChar a = isPdfChar b := by
  rcases jsToLower_cases h with rfl | ⟨h1, h2, h3⟩ | ⟨h1, h2, h3⟩ <;>
    [rfl; skip; skip] <;>
    (rw [Bool.eq_iff_iff];
     simp only [isPdfChar, isAlnumChar, Bool.or_eq_true, decide_eq_true_eq]; omega)

theorem map_lower_filter_congr (p : Char → Bool)
    (hp : ∀ a b, jsToLower a = jsToLower b → p a = p b) :
    ∀ l₁ l₂ : List Char, l₁.map jsToLower = l₂.map jsToLower →
      (l₁.filter p).map jsToLower = (l₂.filter p).map jsToLower := by
  intro l₁
  induction l₁ with
  | nil =>
    intro l₂ h
    cases l₂ with
    | nil => rfl
    | cons b t₂ => simp at h
  | cons a t ih =>
    intro l₂ h
    cases l₂ with
    | nil => simp at h
    | cons b t₂ =>
      simp only [List.map_cons, List.cons.injEq] at h
      obtain ⟨hab, ht⟩ := h
      have hpb : p b = p a := (hp a b hab).symm
      cases hq : p a with
      | false =>
        rw [List.filter_cons_of_neg (by simp [hq]), List.filter_cons_of_neg (by simp [hpb, hq])]
        exact ih t₂ ht
      | true =>
        rw [List.filter_cons_of_pos (by simp [hq]), List.filter_cons_of_pos (by simp [hpb, hq])]
        simp only [List.map_cons]
        rw [hab, ih t₂ ht]

theorem filter_through_ws (p : Char → Bool) (hws : ∀ c, p c = true → isWsChar c = false)
    (l : List Char) : l.filter p = (l.filter (fun c => !isWsChar c)).filter p := by
  rw [List.filter_filter]
  apply List.filter_congr
  intro a _
  cases hq : p a with
  | false => rfl
  | true => simp [hws a hq]

theorem stripLower_eq_of_cwVariant (p : Char → Bool)
    (hp : ∀ a b, jsToLower a = jsToLower b → p a = p b)
    (hws : ∀ c, p c = true → isWsChar c = false)
    {s s' : String} (h : cwVariant s s') :
    lowerStr (stripStr p s) = lowerStr (stripStr p s') := by
  apply String.ext
  show (s.data.filter p).map jsToLower = (s'.data.filter p).map jsToLower
  rw [filter_through_ws p hws s.data, filter_through_ws p hws s'.data]
  exact map_lower_filter_congr p hp _ _ h

theorem isAlnumChar_not_ws (c : Char) (h : isAlnumChar c = true) : isWsChar c = false := by
  simp only [isAlnumChar, decide_eq_true_eq] at h
  simp only [isWsChar, decide_eq_false_iff_not]
  omega

theorem isSenderChar_not_ws (c : Char) (h : isSenderChar c = true) : isWsChar c = false := by
  simp only [isSenderChar, isAlnumChar, Bool.or_eq_true, decide_eq_true_eq] at h
  simp only [isWsChar, decide_eq_false_iff_not]
  omega

theorem isPdfChar_not_ws (c : Char) (h : isPdfChar c = true) : isWsChar c = false := by
  simp only [isPdfChar, isAlnumChar, Bool.or_eq_true, decide_eq_true_eq] at h
  simp only [isWsChar, decide_eq_false_iff_not]
  omega

/-! ### Sort order lemmas -/

theorem jsLeChars_total : ∀ a b : List Char, jsLeChars a b = true ∨ jsLeChars b a = true := by
  intro a
  induction a with
  | nil => intro b; exact Or.inl rfl
  | cons x xs ih =>
    intro b
    cases b with
    | nil => exact Or.inr rfl
    | cons y ys =>
      rcases lt_trichotomy x y with h | h | h
      · left; simp [jsLeChars, h]
      · subst h
        rcases ih ys with h2 | h2
        · left; simp [jsLeChars, lt_irrefl, h2]
        · right; simp [jsLeChars, lt_irrefl, h2]
      · right; simp [jsLeChars, h]

theorem jsLeChars_trans : ∀ a b c : List Char,
    jsLeChars a b = true → jsLeChars b c = true → jsLeChars a c = true := by
  intro a
  induction a with
  | nil => intro b c _ _; rfl
  | cons x xs ih =>
    intro b c hab hbc
    cases b with
    | nil => simp [jsLeChars] at hab
    | cons y ys =>
      cases c with
      | nil => simp [jsLeChars] at hbc
      | cons z zs =>
        simp only [jsLeChars] at hab hbc ⊢
        rcases lt_trichotomy x y with h1 | h1 | h1
        · rcases lt_trichotomy y z with h2 | h2 | h2
          · rw [if_pos (lt_trans h1 h2)]
          · subst h2; rw [if_pos h1]
          · rw [if_neg (lt_asymm h2), if_pos h2] at hbc; exact absurd hbc (by simp)
        · subst h1
          rw [if_neg (lt_irrefl x), if_neg (lt_irrefl x)] at hab
          rcases lt_trichotomy x z with h2 | h2 | h2
          · rw [if_pos h2]
          · subst h2
            rw [if_neg (lt_irrefl x), if_neg (lt_irrefl x)] at hbc ⊢
            exact ih ys zs hab hbc
          · rw [if_neg (lt_asymm h2), if_pos h2] at hbc; exact absurd hbc (by simp)
        · rw [if_neg (lt_asymm h1), if_pos h1] at hab; exact absurd hab (by simp)

theorem jsLeChars_antisymm : ∀ a b : List Char,
    jsLeChars a b = true → jsLeChars b a = true → a = b := by
  intro a
  induction a with
  | nil =>
    intro b _ hba
    cases b with
    | nil => rfl
    | cons y ys => simp [jsLeChars] at hba
  | cons x xs ih =>
    intro b hab hba
    cases b with
    | nil => simp [jsLeChars] at hab
    | cons y ys =>
      simp only [jsLeChars] at hab hba
      rcases lt_trichotomy x y with h1 | h1 | h1
      · rw [if_neg (lt_asymm h1), if_pos h1] at hba
        exact absurd hba (by simp)
      · subst h1
        rw [if_neg (lt_irrefl x), if_neg (lt_irrefl x)] at hab hba
        rw [ih ys hab hba]
      · rw [if_neg (lt_asymm h1), if_pos h1] at hab
        exact absurd hab (by simp)

theorem jsSortStrings_eq_of_perm {l l' : List String} (h : l.Perm l') :
    jsSortStrings l = jsSortStrings l' := by
  haveI : IsTotal String jsLeStr := ⟨fun a b => jsLeChars_total a.data b.data⟩
  haveI : IsTrans String jsLeStr := ⟨fun a b c hab hbc => jsLeChars_trans a.data b.data c.data hab hbc⟩
  haveI : IsAntisymm String jsLeStr :=
    ⟨fun a b hab hba => String.ext (jsLeChars_antisymm a.data b.data hab hba)⟩
  exact List.eq_of_perm_of_sorted
    ((List.perm_insertionSort jsLeStr l).trans (h.trans (List.perm_insertionSort jsLeStr l').symm))
    (List.sorted_insertionSort jsLeStr l) (List.sorted_insertionSort jsLeStr l')

/-! ### Calendar lemmas -/

theorem daysInYear_bounds (y : Nat) : 365 ≤ daysInYear y ∧ daysInYear y ≤ 366 := by
  unfold daysInYear
  split <;> omega

theorem yearFromAux_fst_ge : ∀ fuel y z, y ≤ (yearFromAux fuel y z).1 := by
  intro fuel
  induction fuel with
  | zero => intro y z; exact le_refl y
  | succ f ih =>
    intro y z
    simp only [yearFromAux]
    split
    · exact le_trans (Nat.le_succ y) (ih (y + 1) _)
    · exact le_refl y

theorem yearFromAux_snd_lt : ∀ fuel y z, z < fuel →
    (yearFromAux fuel y z).2 < daysInYear (yearFromAux fuel y z).1 := by
  intro fuel
  induction fuel with
  | zero => omega
  | succ f ih =>
    intro y z hz
    simp only [yearFromAux]
    split
    · next h =>
      have hb := daysInYear_bounds y
      exact ih (y + 1) (z - daysInYear y) (by omega)
    · next h => exact lt_of_not_le h

theorem yearFromAux_inj : ∀ f₁ f₂ y z₁ z₂, z₁ < f₁ → z₂ < f₂ →
    yearFromAux f₁ y z₁ = yearFromAux f₂ y z₂ → z₁ = z₂ := by
  intro f₁
  induction f₁ with
  | zero => omega
  | succ f ih =>
    intro f₂ y z₁ z₂ h1 h2 heq
    cases f₂ with
    | zero => omega
    | succ f₂' =>
      have hb := daysInYear_bounds y
      simp only [yearFromAux] at heq
      split_ifs at heq with ha hb'
      · have := ih f₂' (y + 1) (z₁ - daysInYear y) (z₂ - daysInYear y) (by omega) (by omega) heq
        omega
      · exfalso
        have hy := yearFromAux_fst_ge f (y + 1) (z₁ - daysInYear y)
        rw [heq] at hy
        have hy2 : y + 1 ≤ y := by simpa using hy
        omega
      · exfalso
        have hy := yearFromAux_fst_ge f₂' (y + 1) (z₂ - daysInYear y)
        rw [← heq] at hy
        have hy2 : y + 1 ≤ y := by simpa using hy
        omega
      · have := congrArg Prod.snd heq
        simpa using this

set_option maxRecDepth 4000 in
theorem monthDayOfYear_bounds :
    ∀ leap : Bool, ∀ d, d < 366 → (monthDayOfYear leap d).1 ≤ 12 ∧ (monthDayOfYear leap d).2 < 100 := by
  decide

set_option maxRecDepth 4000 in
theorem monthDayOfYear_roundtrip :
    ∀ leap : Bool, ∀ d, d < 366 →
      doyOfMonthDay leap (monthDayOfYear leap d).1 (monthDayOfYear leap d).2 = d := by
  decide

theorem monthDayOfYear_inj (leap : Bool) {d₁ d₂ : Nat} (h1 : d₁ < 366) (h2 : d₂ < 366)
    (h : monthDayOfYear leap d₁ = monthDayOfYear leap d₂) : d₁ = d₂ := by
  have r1 := monthDayOfYear_roundtrip leap d₁ h1
  have r2 := monthDayOfYear_roundtrip leap d₂ h2
  rw [h] at r1
  rw [r2] at r1
  exact r1.symm

theorem formatDateKeyJst_inj {t₁ t₂ : Nat} (h : formatDateKeyJst t₁ = formatDateKeyJst t₂) :
    jstMinuteIdx t₁ = jstMinuteIdx t₂ := by
  have hdoy1 : (yearFrom (jstMinuteIdx t₁ / 1440)).2 < 366 := by
    have h1 := yearFromAux_snd_lt (jstMinuteIdx t₁ / 1440 + 1) 1970 (jstMinuteIdx t₁ / 1440) (by omega)
    have h2 := (daysInYear_bounds
      (yearFromAux (jstMinuteIdx t₁ / 1440 + 1) 1970 (jstMinuteIdx t₁ / 1440)).1).2
    unfold yearFrom
    omega
  have hdoy2 : (yearFrom (jstMinuteIdx t₂ / 1440)).2 < 366 := by
    have h1 := yearFromAux_snd_lt (jstMinuteIdx t₂ / 1440 + 1) 1970 (jstMinuteIdx t₂ / 1440) (by omega)
    have h2 := (daysInYear_bounds
      (yearFromAux (jstMinuteIdx t₂ / 1440 + 1) 1970 (jstMinuteIdx t₂ / 1440)).1).2
    unfold yearFrom
    omega
  have hb1 := monthDayOfYear_bounds (isLeap (yearFrom (jstMinuteIdx t₁ / 1440)).1)
    (yearFrom (jstMinuteIdx t₁ / 1440)).2 hdoy1
  have hb2 := monthDayOfYear_bounds (isLeap (yearFrom (jstMinuteIdx t₂ / 1440)).1)
    (yearFrom (jstMinuteIdx t₂ / 1440)).2 hdoy2
  have hd := congrArg String.data h
  have hu : ("_" : String).data = ['_'] := rfl
  simp only [formatDateKeyJst, String.data_append, pad2_data, hu, List.append_assoc,
    List.cons_append, List.singleton_append, List.nil_append] at hd
  obtain ⟨hy, hr⟩ := List.append_inj' hd (by simp)
  have hyear : (yearFrom (jstMinuteIdx t₁ / 1440)).1 = (yearFrom (jstMinuteIdx t₂ / 1440)).1 :=
    natDecimal_inj (String.ext hy)
  simp only [List.cons.injEq] at hr
  obtain ⟨e1, e2, e3, e4, -, e5, e6, e7, e8, -⟩ := hr
  have f1 := digitChar_inj e1
  have f2 := digitChar_inj e2
  have f3 := digitChar_inj e3
  have f4 := digitChar_inj e4
  have f5 := digitChar_inj e5
  have f6 := digitChar_inj e6
  have f7 := digitChar_inj e7
  have f8 := digitChar_inj e8
  have hmo : (monthDayOfYear (isLeap (yearFrom (jstMinuteIdx t₁ / 1440)).1)
      (yearFrom (jstMinuteIdx t₁ / 1440)).2).1
      = (monthDayOfYear (isLeap (yearFrom (jstMinuteIdx t₂ / 1440)).1)
      (yearFrom (jstMinuteIdx t₂ / 1440)).2).1 := by omega
  have hdd : (monthDayOfYear (isLeap (yearFrom (jstMinuteIdx t₁ / 1440)).1)
      (yearFrom (jstMinuteIdx t₁ / 1440)).2).2
      = (monthDayOfYear (isLeap (yearFrom (jstMinuteIdx t₂ / 1440)).1)
      (yearFrom (jstMinuteIdx t₂ / 1440)).2).2 := by omega
  have hdoy : (yearFrom (jstMinuteIdx t₁ / 1440)).2 = (yearFrom (jstMinuteIdx t₂ / 1440)).2 := by
    apply monthDayOfYear_inj (isLeap (yearFrom (jstMinuteIdx t₁ / 1440)).1) hdoy1 hdoy2
    rw [hyear] at hmo hdd ⊢
    exact Prod.ext_iff.mpr ⟨hmo, hdd⟩
  have hyf : yearFrom (jstMinuteIdx t₁ / 1440) = yearFrom (jstMinuteIdx t₂ / 1440) :=
    Prod.ext_iff.mpr ⟨hyear, hdoy⟩
  have hday : jstMinuteIdx t₁ / 1440 = jstMinuteIdx t₂ / 1440 := by
    apply yearFromAux_inj (jstMinuteIdx t₁ / 1440 + 1) (jstMinuteIdx t₂ / 1440 + 1) 1970 _ _
      (by omega) (by omega)
    exact hyf
  omega

theorem sepChainEq {sk dk dk' sbk pk : String}
    (h : sk ++ "_" ++ dk ++ "_" ++ sbk ++ "_" ++ pk = sk ++ "_" ++ dk' ++ "_" ++ sbk ++ "_" ++ pk) :
    dk = dk' := by
  apply String.ext
  have hd := congrArg String.data h
  have hu : ("_" : String).data = ['_'] := rfl
  simp only [String.data_append, hu, List.append_assoc, List.cons_append,
    List.singleton_append, List.nil_append] at hd
  have h2 := List.append_cancel_left hd
  have h3 := congrArg List.tail h2
  simp only [List.tail_cons] at h3
  exact List.append_cancel_right h3

theorem combinedContentKey_minute_eq {sender subj : String} {pdfs : List String} {t₁ t₂ : Nat}
    (h : combinedContentKey sender t₁ subj pdfs = combinedContentKey sender t₂ subj pdfs) :
    jstMinuteIdx t₁ = jstMinuteIdx t₂ := by
  apply formatDateKeyJst_inj
  simp only [combinedContentKey] at h
  exact sepChainEq h

/-! ### C5, C6, C7, C8: fingerprint generator properties -/

theorem senderKey_eq_of_cwVariant {s s' : String} (h : cwVariant s s') :
    lowerStr (stripStr isSenderChar s) = lowerStr (stripStr isSenderChar s') :=
  stripLower_eq_of_cwVariant isSenderChar (fun a b hab => isSenderChar_eq_of_lower_eq hab)
    isSenderChar_not_ws h

theorem subjectKey_eq_of_cwVariant {s s' : String} (h : cwVariant s s') :
    lowerStr (stripStr isAlnumChar s) = lowerStr (stripStr isAlnumChar s') :=
  stripLower_eq_of_cwVariant isAlnumChar (fun a b hab => isAlnumChar_eq_of_lower_eq hab)
    isAlnumChar_not_ws h

/-- C5. The fingerprint is unchanged by permuting the attachment-name list
and by changing only the case or whitespace of sender and subject: for every
digest, wall clock, timestamp, and inputs related that way,
`generateContentDuplicateKey` returns equal keys.  Attachment order
independence is the `List.Perm` hypothesis; `cwVariant` says the two
strings agree after dropping whitespace and folding letter case. -/
theorem generateContentDuplicateKey_perm_case_ws_invariant
    (digest : String → String) (nowMs : Nat) (sender sender' subj subj' : String) (t : Nat)
    (pdfs pdfs' : List String) (hperm : pdfs.Perm pdfs')
    (hsender : cwVariant sender sender') (hsubj : cwVariant subj subj') :
    generateContentDuplicateKey digest nowMs sender (some t) subj pdfs
      = generateContentDuplicateKey digest nowMs sender' (some t) subj' pdfs' := by
  simp only [generateContentDuplicateKey, combinedContentKey]
  rw [jsSortStrings_eq_of_perm hperm, senderKey_eq_of_cwVariant hsender,
    subjectKey_eq_of_cwVariant hsubj]

/-- C5 witness: permuting two attachment names and varying the case and
whitespace of sender and subject leaves the fingerprint unchanged. -/
theorem generateContentDuplicateKey_perm_case_ws_invariant_witness :
    generateContentDuplicateKey (fun s => s) 0 "a@x.com" (some 1719020000000) "Loan Agreement"
        ["loan.pdf", "annex.pdf"]
      = generateContentDuplicateKey (fun s => s) 0 "A@X.COM " (some 1719020000000)
        "loanagreement" ["annex.pdf", "loan.pdf"] :=
  generateContentDuplicateKey_perm_case_ws_invariant (fun s => s) 0 "a@x.com" "A@X.COM "
    "Loan Agreement" "loanagreement" 1719020000000 ["loan.pdf", "annex.pdf"]
    ["annex.pdf", "loan.pdf"] (by decide) (by decide) (by decide)

/-- C7. Time sensitivity: when two timestamps differ by more than the
one-minute truncation granularity (e.g. `t` and `t + 2min`), the canonical
pre-digest keys built by `generateContentDuplicateKey` are different, and
therefore the fingerprints differ whenever the external digest collaborator
does not collide on those two keys after truncation to 16 characters (the
spec treats hash collisions as out of scope for this property). -/
theorem generateContentDuplicateKey_time_sensitivity
    (digest : String → String) (nowMs : Nat) (sender subj : String) (pdfs : List String)
    (t₁ t₂ : Nat) (ht : t₁ + 60000 < t₂) :
    combinedContentKey sender t₁ subj pdfs ≠ combinedContentKey sender t₂ subj pdfs ∧
    (jsSubstringTo (digest (combinedContentKey sender t₁ subj pdfs)) 16
        ≠ jsSubstringTo (digest (combinedContentKey sender t₂ subj pdfs)) 16 →
      generateContentDuplicateKey digest nowMs sender (some t₁) subj pdfs
        ≠ generateContentDuplicateKey digest nowMs sender (some t₂) subj pdfs) := by
  constructor
  · intro h
    have hm := combinedContentKey_minute_eq h
    unfold jstMinuteIdx at hm
    omega
  · intro hne h
    apply hne
    apply String.ext
    have hd := congrArg String.data h
    simp only [generateContentDuplicateKey, String.data_append] at hd
    exact List.append_cancel_left hd

/-- C7 witness: two-minute shift (120000 ms) on a concrete input changes
both the canonical key and, with a concrete digest, the fingerprint. -/
theorem generateContentDuplicateKey_time_sensitivity_witness :
    combinedContentKey "a" 0 "x" ["p.pdf"] ≠ combinedContentKey "a" 120000 "x" ["p.pdf"] ∧
    generateContentDuplicateKey (fun s => s) 0 "a" (some 0) "x" ["p.pdf"]
      ≠ generateContentDuplicateKey (fun s => s) 0 "a" (some 120000) "x" ["p.pdf"] :=
  ⟨(generateContentDuplicateKey_time_sensitivity (fun s => s) 0 "a" "x" ["p.pdf"] 0 120000
      (by decide)).1,
   (generateContentDuplicateKey_time_sensitivity (fun s => s) 0 "a" "x" ["p.pdf"] 0 120000
      (by decide)).2 (by decide)⟩

/-- C6 counterexample: the claim "the fingerprint is insensitive to the
letter case of attachment file names, for every attachment-name list" is
false on the code: `pdfNames.sort()` runs before `.toLowerCase()`, so a
case change that alters the sort order (here `["a.pdf", "B.pdf"]` versus
`["a.pdf", "b.pdf"]`, since uppercase sorts before lowercase) changes the
canonical key and hence the fingerprint. -/
theorem generateContentDuplicateKey_case_insensitive_counterexample :
    ¬ (∀ (digest : String → String) (nowMs : Nat) (sender : String) (t : Nat) (subj : String)
        (pdfs pdfs' : List String), pdfs.map lowerChars = pdfs'.map lowerChars →
        generateContentDuplicateKey digest nowMs sender (some t) subj pdfs
          = generateContentDuplicateKey digest nowMs sender (some t) subj pdfs') := by
  intro hcl
  have hinst := hcl (fun s => ⟨s.data.reverse⟩) 0 "a@x.com" 0 "Loan"
    ["a.pdf", "B.pdf"] ["a.pdf", "b.pdf"] (by decide)
  revert hinst
  decide

theorem joinSep_lower_congr : ∀ l₁ l₂ : List String, l₁.map lowerChars = l₂.map lowerChars →
    (joinSep "," l₁).data.map jsToLower = (joinSep "," l₂).data.map jsToLower := by
  intro l₁
  induction l₁ with
  | nil =>
    intro l₂ h
    cases l₂ with
    | nil => rfl
    | cons s' r' => simp at h
  | cons s r ih =>
    intro l₂ h
    cases l₂ with
    | nil => simp at h
    | cons s' r' =>
      simp only [List.map_cons, List.cons.injEq] at h
      obtain ⟨hs, hr⟩ := h
      cases r with
      | nil =>
        cases r' with
        | nil => exact hs
        | cons a' b' => simp at hr
      | cons a b =>
        cases r' with
        | nil => simp at hr
        | cons a' b' =>
          show ((s ++ "," ++ joinSep "," (a :: b)).data.map jsToLower)
            = ((s' ++ "," ++ joinSep "," (a' :: b')).data.map jsToLower)
          simp only [String.data_append, List.map_append]
          rw [show s.data.map jsToLower = s'.data.map jsToLower from hs,
            ih (a' :: b') hr]

theorem pdfKey_eq_of_sorted_lower {pdfs pdfs' : List String}
    (h : (jsSortStrings pdfs).map lowerChars = (jsSortStrings pdfs').map lowerChars) :
    lowerStr (stripStr isPdfChar (joinSep "," (jsSortStrings pdfs)))
      = lowerStr (stripStr isPdfChar (joinSep "," (jsSortStrings pdfs'))) := by
  apply String.ext
  show ((joinSep "," (jsSortStrings pdfs)).data.filter isPdfChar).map jsToLower
    = ((joinSep "," (jsSortStrings pdfs')).data.filter isPdfChar).map jsToLower
  exact map_lower_filter_congr isPdfChar (fun a b hab => isPdfChar_eq_of_lower_eq hab) _ _
    (joinSep_lower_congr _ _ h)

/-- C6 amended: the fingerprint is insensitive to the letter case of
attachment file names provided the case change preserves the sorted order,
i.e. whenever the sorted lists are pointwise case variants of each other —
in particular for a single attachment (`["loan.pdf"]` vs `["LOAN.PDF"]`,
the spec's own example). -/
theorem generateContentDuplicateKey_case_insensitive_amended
    (digest : String → String) (nowMs : Nat) (sender : String) (t : Nat) (subj : String)
    (pdfs pdfs' : List String)
    (h : (jsSortStrings pdfs).map lowerChars = (jsSortStrings pdfs').map lowerChars) :
    generateContentDuplicateKey digest nowMs sender (some t) subj pdfs
      = generateContentDuplicateKey digest nowMs sender (some t) subj pdfs' := by
  simp only [generateContentDuplicateKey, combinedContentKey]
  rw [pdfKey_eq_of_sorted_lower h]

/-- C6 amended witness: the spec's example, `["loan.pdf"]` versus
`["LOAN.PDF"]`, yields equal fingerprints. -/
theorem generateContentDuplicateKey_case_insensitive_amended_witness :
    generateContentDuplicateKey (fun s => s) 0 "a@x.com" (some 0) "Loan" ["loan.pdf"]
      = generateContentDuplicateKey (fun s => s) 0 "a@x.com" (some 0) "Loan" ["LOAN.PDF"] :=
  generateContentDuplicateKey_case_insensitive_amended (fun s => s) 0 "a@x.com" 0 "Loan"
    ["loan.pdf"] ["LOAN.PDF"] (by decide)

/-- C8. The fingerprint computation never fails: every call returns a
`CONTENT_`-prefixed key, and on a normalization failure (missing/invalid
timestamp, modelled as `date = none`) it returns the fallback key derived
from the current wall-clock instant (`CONTENT_${new Date().getTime()}`),
so the record is treated as unconditionally unique rather than aborting. -/
theorem generateContentDuplicateKey_total_with_fallback
    (digest : String → String) (nowMs : Nat) (sender : String) (date : Option Nat)
    (subj : String) (pdfs : List String) :
    (∃ rest : String, generateContentDuplicateKey digest nowMs sender date subj pdfs
        = "CONTENT_" ++ rest) ∧
    (date = none → generateContentDuplicateKey digest nowMs sender date subj pdfs
        = "CONTENT_" ++ natDecimal nowMs) := by
  constructor
  · cases date with
    | none => exact ⟨natDecimal nowMs, rfl⟩
    | some t => exact ⟨_, rfl⟩
  · intro h
    subst h
    rfl

/-- C8 witness: a missing timestamp yields the wall-clock fallback key. -/
theorem generateContentDuplicateKey_total_with_fallback_witness :
    generateContentDuplicateKey (fun s => s) 1719020000000 "a@x.com" none "Loan" ["p.pdf"]
      = "CONTENT_" ++ natDecimal 1719020000000 :=
  (generateContentDuplicateKey_total_with_fallback (fun s => s) 1719020000000 "a@x.com" none
    "Loan" ["p.pdf"]).2 rfl

/-! ### C1: Content Ledger write-once and idempotent visibility -/

theorem countContentKey_eq_zero_of_miss {rows : List DuplicateRecordRow} {k : String}
    (h : checkContentDuplicate rows k = none) : countContentKey rows k = 0 := by
  unfold checkContentDuplicate at h
  rw [Option.map_eq_none'] at h
  rw [List.find?_eq_none] at h
  unfold countContentKey
  rw [List.countP_eq_zero]
  intro r hr
  simpa using h r hr

/-- C1. The Content Ledger is write-once per content key: every ledger
state reachable through the coordinator (which appends only after
`checkContentDuplicate` reported a miss) holds at most one DuplicateRecord
per content key; and once a key is visible, appending any further row —
e.g. a second `recordContentDuplicate` with the same contentKey — does not
change what `checkContentDuplicate` retrieves for that key, so no second
record ever becomes retrievable by lookup. -/
theorem contentLedger_write_once :
    (∀ (rows : List DuplicateRecordRow) (k : String), ContentLedgerReachable rows →
      countContentKey rows k ≤ 1) ∧
    (∀ (rows : List DuplicateRecordRow) (row : DuplicateRecordRow) (k : String),
      (checkContentDuplicate rows k).isSome = true →
      checkContentDuplicate (recordContentDuplicate rows row) k
        = checkContentDuplicate rows k) := by
  constructor
  · intro rows k hr
    induction hr with
    | nil => simp [countContentKey]
    | append L row hmiss hL ih =>
      unfold countContentKey recordContentDuplicate at *
      rw [List.countP_append]
      by_cases hk : (row.contentKey == k) = true
      · have heq : row.contentKey = k := by simpa using hk
        subst heq
        have h0 := countContentKey_eq_zero_of_miss hmiss
        unfold countContentKey at h0
        simp [List.countP_cons, h0]
      · simp [List.countP_cons, hk]
        omega
  · intro rows row k h
    unfold checkContentDuplicate recordContentDuplicate at *
    rw [List.find?_append]
    rw [Option.isSome_iff_exists] at h
    obtain ⟨r, hr⟩ := h
    rw [Option.map_eq_some'] at hr
    obtain ⟨r2, hr2, -⟩ := hr
    rw [hr2]
    rfl

/-- C1 witness: after a coordinator-style append of `sampleDupRow` the key
`CONTENT_k1` has one record, and a second raw append of the same row does
not change what lookup retrieves. -/
theorem contentLedger_write_once_witness :
    countContentKey (recordContentDuplicate [] sampleDupRow) "CONTENT_k1" ≤ 1 ∧
    checkContentDuplicate
        (recordContentDuplicate (recordContentDuplicate [] sampleDupRow) sampleDupRow)
        "CONTENT_k1"
      = checkContentDuplicate (recordContentDuplicate [] sampleDupRow) "CONTENT_k1" :=
  ⟨contentLedger_write_once.1 (recordContentDuplicate [] sampleDupRow) "CONTENT_k1"
      (ContentLedgerReachable.append [] sampleDupRow (by decide) ContentLedgerReachable.nil),
    contentLedger_write_once.2 (recordContentDuplicate [] sampleDupRow) sampleDupRow
      "CONTENT_k1" (by decide)⟩

/-! ### C2, C3, C4: coordinator behaviour -/

theorem contentPhase_saveFail (avail : Bool) (digest : String → String) (nowMs : Nat)
    (nowStr : String) (L : List DuplicateRecordRow) (m : MsgInput) (h : m.saveOk = false) :
    (contentPhase avail digest nowMs nowStr L m).1 = L := by
  simp only [contentPhase, h, Bool.false_eq_true, if_false]
  split
  · rfl
  · split <;> rfl

theorem contentPhase_unavailable (digest : String → String) (nowMs : Nat) (nowStr : String)
    (L : List DuplicateRecordRow) (m : MsgInput) :
    contentPhase false digest nowMs nowStr L m = (L, false, !m.pdfNames.isEmpty) := by
  unfold contentPhase
  cases he : m.pdfNames.isEmpty with
  | true => simp [he]
  | false =>
    simp only [he, Bool.false_eq_true, if_false, Bool.not_false]
    simp only [checkContentDuplicateAt, recordContentDuplicateAt, Bool.false_eq_true, if_false]
    split <;> rfl

/-- C2 counterexample: the claim "when artifact persistence fails, the
appended ProcessingRecord carries status=Error" is false on the code: the
per-attachment failure is swallowed inside `processAttachments`,
`processMessage` still returns true, and `markMessageAsProcessed` appends
the record with the default `status = 'Success'` — no caller ever passes
`'Error'`. -/
theorem processingRecord_error_status_counterexample :
    ¬ (∀ (digest : String → String) (nowMs : Nat) (nowStr : String) (st : MsgState)
        (m : MsgInput),
        m.patternOk = true →
        isMessageProcessedInSpreadsheet true st.processingLedger m.messageId = false →
        m.saveOk = false →
        ∀ r ∈ (messageStep true digest nowMs nowStr st m).state.processingLedger,
          r ∈ st.processingLedger ∨ r.status = "Error") := by
  intro hcl
  have hinst := hcl (fun s => s) 0 "now" ⟨[], [], []⟩ sampleFailMsg rfl (by decide) rfl
  revert hinst
  decide

/-- C2 amended: for every message whose processing completes (subject
pattern matched and not already processed), exactly one ProcessingRecord
is appended for its messageId — but it always carries `status = 'Success'`
(and an empty content key), whether artifact persistence succeeded or
failed; and when persistence of the first attachment fails, no
DuplicateRecord is appended for that content key, so a retry treats the
same content as Novel again. -/
theorem processingRecord_appended_once_amended
    (digest : String → String) (nowMs : Nat) (nowStr : String) (st : MsgState) (m : MsgInput)
    (hpat : m.patternOk = true)
    (hnew : isMessageProcessedInSpreadsheet true st.processingLedger m.messageId = false) :
    (messageStep true digest nowMs nowStr st m).state.processingLedger
      = st.processingLedger ++ [⟨nowStr, m.messageId, "", m.subject, m.sender, "Success"⟩] ∧
    (m.saveOk = false → (messageStep true digest nowMs nowStr st m).state.contentLedger
      = st.contentLedger) := by
  constructor
  · simp [messageStep, hnew, hpat, markMessageProcessedInSpreadsheet, Option.getD]
  · intro hsave
    simp only [messageStep, hnew, hpat]
    simp only [Bool.false_eq_true, if_false]
    exact contentPhase_saveFail true digest nowMs nowStr st.contentLedger m hsave

/-- C2 amended witness: a failing save on a fresh state appends exactly the
one Success record and leaves the content ledger empty. -/
theorem processingRecord_appended_once_amended_witness :
    (messageStep true (fun s => s) 0 "now" ⟨[], [], []⟩ sampleFailMsg).state.processingLedger
      = [] ++ [⟨"now", sampleFailMsg.messageId, "", sampleFailMsg.subject, sampleFailMsg.sender,
          "Success"⟩] ∧
    (sampleFailMsg.saveOk = false →
      (messageStep true (fun s => s) 0 "now" ⟨[], [], []⟩ sampleFailMsg).state.contentLedger
        = ([] : List DuplicateRecordRow)) :=
  processingRecord_appended_once_amended (fun s => s) 0 "now" ⟨[], [], []⟩ sampleFailMsg rfl
    (by decide)

/-- C3 counterexample: the claim "a Bounded Fast Store hit is treated as
AlreadyHandled with no further action" is false on the code:
`isMessageAlreadyProcessed` consults only the processed-messages sheet, so
a message whose id sits in the fast store (Script Properties) but not in
the sheet is processed in full. -/
theorem messageCheck_fastStore_counterexample :
    ¬ (∀ (avail : Bool) (digest : String → String) (nowMs : Nat) (nowStr : String)
        (st : MsgState) (m : MsgInput),
        hasKey st.scriptProps ("PROCESSED_MSG_" ++ m.messageId) = true →
        messageStep avail digest nowMs nowStr st m = ⟨st, false, false⟩) := by
  intro hcl
  have hinst := hcl true (fun s => s) 0 "now" ⟨[], [], samplePropsFast⟩ sampleMsg (by decide)
  revert hinst
  decide

/-- C3 amended: the message-level novelty check consults only the
Processing Ledger: a ledger hit is terminal (no further action), the
Bounded Fast Store is never queried (behaviour is independent of the
Script Properties contents) and never warmed (the store is left
unchanged). -/
theorem messageCheck_ledger_only_amended
    (avail : Bool) (digest : String → String) (nowMs : Nat) (nowStr : String) (st : MsgState)
    (m : MsgInput) (props' : List (String × String)) :
    (isMessageProcessedInSpreadsheet avail st.processingLedger m.messageId = true →
      messageStep avail digest nowMs nowStr st m = ⟨st, false, false⟩) ∧
    (messageStep avail digest nowMs nowStr st m).state.scriptProps = st.scriptProps ∧
    (messageStep avail digest nowMs nowStr
        ⟨st.contentLedger, st.processingLedger, props'⟩ m).state.contentLedger
      = (messageStep avail digest nowMs nowStr st m).state.contentLedger ∧
    (messageStep avail digest nowMs nowStr
        ⟨st.contentLedger, st.processingLedger, props'⟩ m).state.processingLedger
      = (messageStep avail digest nowMs nowStr st m).state.processingLedger ∧
    (messageStep avail digest nowMs nowStr
        ⟨st.contentLedger, st.processingLedger, props'⟩ m).notified
      = (messageStep avail digest nowMs nowStr st m).notified ∧
    (messageStep avail digest nowMs nowStr
        ⟨st.contentLedger, st.processingLedger, props'⟩ m).storeInvoked
      = (messageStep avail digest nowMs nowStr st m).storeInvoked := by
  refine ⟨fun h => by simp [messageStep, h], ?_, ?_, ?_, ?_, ?_⟩ <;>
    (simp only [messageStep]
     split
     · rfl
     · split <;> rfl)

/-- C3 amended witness: a processed-messages sheet hit is terminal on a
concrete state. -/
theorem messageCheck_ledger_only_amended_witness :
    messageStep true (fun s => s) 0 "now" ⟨[], [samplePrevRow], []⟩ sampleMsg
      = ⟨⟨[], [samplePrevRow], []⟩, false, false⟩ :=
  (messageCheck_ledger_only_amended true (fun s => s) 0 "now" ⟨[], [samplePrevRow], []⟩
    sampleMsg []).1 (by decide)

/-- C4 counterexample: the claim "when the Processing Ledger backing store
is unreachable, the message is skipped for the current invocation" is false
on the code: `isMessageProcessedInSpreadsheet` catches the error and
returns false ("assume not processed"), so the message — here one that was
already processed in an earlier run — is fully re-processed (notification
issued) instead of being skipped. -/
theorem ledgerUnavailable_skip_counterexample :
    ¬ (∀ (digest : String → String) (nowMs : Nat) (nowStr : String) (st : MsgState)
        (m : MsgInput),
        messageStep false digest nowMs nowStr st m = ⟨st, false, false⟩) := by
  intro hcl
  have hinst := hcl (fun s => s) 0 "now" ⟨[], [samplePrevRow], []⟩ sampleMsg
  revert hinst
  decide

/-- C4 amended: when the backing tabular store is unreachable, the lookup
reports "not processed", so a pattern-matching message is fully processed
again (notification and document store invoked); none of the ledgers can
be written (every append is swallowed), so in particular the message is
not marked processed and will be retried on a later periodic run. -/
theorem ledgerUnavailable_reprocess_amended
    (digest : String → String) (nowMs : Nat) (nowStr : String) (st : MsgState) (m : MsgInput) :
    (messageStep false digest nowMs nowStr st m).state = st ∧
    (messageStep false digest nowMs nowStr st m).notified = m.patternOk ∧
    (messageStep false digest nowMs nowStr st m).storeInvoked
      = (m.patternOk && !m.pdfNames.isEmpty) := by
  obtain ⟨cl, pl, pr⟩ := st
  cases hp : m.patternOk with
  | false =>
    simp [messageStep, isMessageProcessedInSpreadsheet, hp]
  | true =>
    simp [messageStep, isMessageProcessedInSpreadsheet, hp, markMessageProcessedInSpreadsheet,
      contentPhase_unavailable]

/-! ### C9, C10: Script Properties store (bounded fast store) -/

theorem getProp_filter_of_kept {s : PropStore} {k : String} (q : String × String → Bool)
    (hq : ∀ p, p.1 = k → q p = true) : getProp (s.filter q) k = getProp s k := by
  induction s with
  | nil => rfl
  | cons p t ih =>
    by_cases hpk : p.1 = k
    · rw [List.filter_cons_of_pos (hq p hpk)]
      unfold getProp
      rw [List.find?_cons_of_pos _ (by simp [hpk]), List.find?_cons_of_pos _ (by simp [hpk])]
    · cases hqp : q p with
      | true =>
        rw [List.filter_cons_of_pos hqp]
        unfold getProp
        rw [List.find?_cons_of_neg _ (by simp [hpk]), List.find?_cons_of_neg _ (by simp [hpk])]
        exact ih
      | false =>
        rw [List.filter_cons_of_neg (by simp [hqp])]
        unfold getProp at ih ⊢
        rw [List.find?_cons_of_neg _ (by simp [hpk])]
        exact ih

theorem getProp_deleteProp_ne {s : PropStore} {k k' : String} (h : k' ≠ k) :
    getProp (deleteProp s k') k = getProp s k := by
  apply getProp_filter_of_kept
  intro p hp
  have hb : (k == k') = false := beq_eq_false_iff_ne.mpr (Ne.symm h)
  simp [hp, hb]

theorem getProp_foldl_delete {rem : List (String × Nat)} {s : PropStore} {k : String}
    (h : ∀ r ∈ rem, r.1 ≠ k) :
    getProp (rem.foldl (fun st item => deleteProp st item.1) s) k = getProp s k := by
  induction rem generalizing s with
  | nil => rfl
  | cons r t ih =>
    have h1 : r.1 ≠ k := h r (List.mem_cons_self r t)
    have h2 : ∀ x ∈ t, x.1 ≠ k := fun x hx => h x (List.mem_cons_of_mem r hx)
    show getProp (List.foldl (fun st item => deleteProp st item.1) (deleteProp s r.1) t) k
      = getProp s k
    rw [ih h2, getProp_deleteProp_ne h1]

theorem procEntries_key_facts {s : PropStore} {a : String × Nat} (ha : a ∈ procEntries s) :
    keyIsProcessedMsg a.1 = true ∧ hasKey s a.1 = true := by
  unfold procEntries at ha
  rw [List.mem_filterMap] at ha
  obtain ⟨p, hp, hfp⟩ := ha
  by_cases hk : keyIsProcessedMsg p.1 = true
  · rw [if_pos hk] at hfp
    rw [Option.map_eq_some'] at hfp
    obtain ⟨t, -, hat⟩ := hfp
    have h1 : a.1 = p.1 := by rw [← hat]
    constructor
    · rw [h1]; exact hk
    · rw [h1]
      unfold hasKey
      rw [List.any_eq_true]
      exact ⟨p, hp, by simp⟩
  · rw [if_neg hk] at hfp
    exact absurd hfp (by simp)

theorem mem_sortedProcEntries_facts {s : PropStore} {a : String × Nat}
    (ha : a ∈ sortedProcEntries s) : keyIsProcessedMsg a.1 = true ∧ hasKey s a.1 = true :=
  procEntries_key_facts ((List.perm_insertionSort tsLe (procEntries s)).mem_iff.mp ha)

/-- C10. Eviction and cleanup of the Bounded Fast Store only ever delete
`PROCESSED_MSG_` properties: for every store and every key that does not
start with that tag (configuration such as `SLACK_WEBHOOK_URL`,
`DRIVE_FOLDER_ID`, `SPREADSHEET_ID`, `SENDER_EMAIL_*`),
`rotateProcessedMessages`, `cleanupOldProcessedMessages` and
`clearAllProcessedMessages` leave that property unchanged. -/
theorem cleanup_frame (n nowMs days : Nat) (s : PropStore) (k : String)
    (h : keyIsProcessedMsg k = false) :
    getProp (rotateProcessedMessages n s) k = getProp s k ∧
    getProp (cleanupOldProcessedMessages nowMs days s) k = getProp s k ∧
    getProp (clearAllProcessedMessages s) k = getProp s k := by
  refine ⟨?_, ?_, ?_⟩
  · unfold rotateProcessedMessages
    apply getProp_foldl_delete
    intro r hr hrk
    have hfacts := mem_sortedProcEntries_facts (List.take_subset n (sortedProcEntries s) hr)
    rw [hrk, h] at hfacts
    exact Bool.noConfusion hfacts.1
  · apply getProp_filter_of_kept
    intro p hp
    simp [hp, h]
  · apply getProp_filter_of_kept
    intro p hp
    simp [hp, h]

/-- C10 witness: on a mixed store, none of the three maintenance functions
touches the `SLACK_WEBHOOK_URL` configuration property. -/
theorem cleanup_frame_witness :
    getProp (rotateProcessedMessages 5 samplePropsMixed) "SLACK_WEBHOOK_URL"
      = getProp samplePropsMixed "SLACK_WEBHOOK_URL" ∧
    getProp (cleanupOldProcessedMessages 1720000000000 3 samplePropsMixed) "SLACK_WEBHOOK_URL"
      = getProp samplePropsMixed "SLACK_WEBHOOK_URL" ∧
    getProp (clearAllProcessedMessages samplePropsMixed) "SLACK_WEBHOOK_URL"
      = getProp samplePropsMixed "SLACK_WEBHOOK_URL" :=
  cleanup_frame 5 1720000000000 3 samplePropsMixed "SLACK_WEBHOOK_URL" (by decide)

theorem hasKey_false_filter {s : PropStore} {k : String} (q : String × String → Bool)
    (h : hasKey s k = false) : hasKey (s.filter q) k = false := by
  rw [Bool.eq_false_iff] at h ⊢
  intro hf
  apply h
  simp only [hasKey, List.any_eq_true] at hf ⊢
  obtain ⟨p, hp, hpk⟩ := hf
  exact ⟨p, List.mem_of_mem_filter hp, hpk⟩

theorem hasKey_false_foldl_delete {rem : List (String × Nat)} {s : PropStore} {k : String}
    (h : hasKey s k = false) :
    hasKey (rem.foldl (fun st item => deleteProp st item.1) s) k = false := by
  induction rem generalizing s with
  | nil => exact h
  | cons r t ih => exact ih (hasKey_false_filter _ h)

theorem getProp_setRaw_self {s : PropStore} {k v : String} (h : hasKey s k = false) :
    getProp (setRaw s k v) k = some v := by
  unfold setRaw
  rw [h]
  simp only [Bool.false_eq_true, if_false]
  unfold getProp
  rw [List.find?_append]
  have hnone : s.find? (fun p => p.1 == k) = none := by
    rw [List.find?_eq_none]
    intro p hp hbeq
    exact (Bool.eq_false_iff.mp h) (List.any_eq_true.mpr ⟨p, hp, hbeq⟩)
  rw [hnone]
  simp [List.find?]

/-- C9. Bounded Fast Store eviction: when `setProperty` inserts a new key
into a store holding at least 48 of the 50 allowed properties and the key
is a `PROCESSED_MSG_` entry, it first evicts a fixed batch of the k = 5
entries with the oldest stored timestamps (strict FIFO by insertion time —
every evicted entry is no newer than every survivor), the batch size is
`min 5` the number of parseable entries, the entry being inserted is never
evicted, and after the call the new entry is present with its value. -/
theorem setProperty_rotation (nowMs : Nat) (s : PropStore) (k v : String)
    (h48 : 48 ≤ s.length) (hnew : hasKey s k = false) (hproc : keyIsProcessedMsg k = true) :
    setProperty nowMs s k v = setRaw (rotateProcessedMessages 5 s) k v ∧
    ((sortedProcEntries s).take 5).length = min 5 (procEntries s).length ∧
    (∀ a ∈ (sortedProcEntries s).take 5, ∀ b ∈ (sortedProcEntries s).drop 5, a.2 ≤ b.2) ∧
    (∀ a ∈ (sortedProcEntries s).take 5, a.1 ≠ k) ∧
    getProp (setProperty nowMs s k v) k = some v := by
  have h1 : setProperty nowMs s k v = setRaw (rotateProcessedMessages 5 s) k v := by
    unfold setProperty
    rw [if_pos ⟨h48, hnew⟩, if_pos hproc]
  refine ⟨h1, ?_, ?_, ?_, ?_⟩
  · rw [List.length_take,
      show (sortedProcEntries s).length = (procEntries s).length from
        (List.perm_insertionSort tsLe (procEntries s)).length_eq]
  · haveI : IsTotal (String × Nat) tsLe := ⟨fun a b => Nat.le_total a.2 b.2⟩
    haveI : IsTrans (String × Nat) tsLe := ⟨fun a b c hab hbc => Nat.le_trans hab hbc⟩
    have hs := List.sorted_insertionSort tsLe (procEntries s)
    have hs2 : List.Pairwise tsLe
        ((sortedProcEntries s).take 5 ++ (sortedProcEntries s).drop 5) := by
      rw [List.take_append_drop]
      exact hs
    intro a ha b hb
    exact (List.pairwise_append.mp hs2).2.2 a ha b hb
  · intro a ha hak
    have hfacts := mem_sortedProcEntries_facts (List.take_subset 5 (sortedProcEntries s) ha)
    rw [hak, hnew] at hfacts
    exact Bool.noConfusion hfacts.2
  · rw [h1]
    exact getProp_setRaw_self
      (@hasKey_false_foldl_delete ((sortedProcEntries s).take 5) _ _ hnew)

/-- C9 witness: inserting a fresh `PROCESSED_MSG_x` into a 48-entry store
rotates first and stores the new entry, which is never among the evicted. -/
theorem setProperty_rotation_witness :
    getProp (setProperty 1720000000000 sampleStore48 "PROCESSED_MSG_x" "1719000000999")
        "PROCESSED_MSG_x" = some "1719000000999" ∧
    (∀ a ∈ (sortedProcEntries sampleStore48).take 5, a.1 ≠ "PROCESSED_MSG_x") :=
  ⟨(setProperty_rotation 1720000000000 sampleStore48 "PROCESSED_MSG_x" "1719000000999"
      (by decide) (by decide) (by decide)).2.2.2.2,
   (setProperty_rotation 1720000000000 sampleStore48 "PROCESSED_MSG_x" "1719000000999"
      (by decide) (by decide) (by decide)).2.2.2.1⟩

end CMP
